import Mathlib

set_option autoImplicit false
set_option maxRecDepth 8000

/-!
Shallow embedding of the gem-mirror synchronization core (src/storage.rs):
the data model (Gem, Namespace, Index), the compact-index line parser,
Namespace::merge, the per-namespace loop of update_store, and the two Store
implementations (MemoryStore and FsStore).

Strings are modelled as lists of characters (the data handled here is ASCII,
so Rust byte indexing and char indexing agree). Computations that can fail
are modelled in RunM: the Except layer carries miette errors, and the Option
layer models Rust panics (unwrap and slice-bound failures), with none for a
panic.
-/

/-- Character-list strings, the model of Rust str slices. -/
abbrev Str : Type := List Char

/-- Computations of the storage core: Except.error is a miette error, the
outer Option layer is none exactly when the Rust code panics. -/
abbrev RunM (α : Type) : Type := ExceptT String Option α

/-- The outcome of a Rust panic (an unwrap failure or an invalid slice). -/
def rpanic {α : Type} : RunM α := ExceptT.mk none

/-- Drops every entry with the given key. -/
def removeKey {κ α : Type} [DecidableEq κ] (k : κ) : List (κ × α) →
    List (κ × α)
  | [] => []
  | p :: rest => if p.1 = k then removeKey k rest else p :: removeKey k rest

/-- HashMap::insert on association lists: replaces any entry with the key. -/
def insertRep {κ α : Type} [DecidableEq κ] (k : κ) (v : α) (l : List (κ × α)) :
    List (κ × α) :=
  (k, v) :: removeKey k l

/-- HashMap::get on association lists. -/
def lookupA {κ α : Type} [DecidableEq κ] (k : κ) : List (κ × α) → Option α
  | [] => none
  | p :: rest => if p.1 = k then some p.2 else lookupA k rest

/-- str::split_once: splits at the first occurrence of the separator. -/
def splitOnce (c : Char) : Str → Option (Str × Str)
  | [] => none
  | x :: xs =>
    if x = c then some ([], xs)
    else (splitOnce c xs).map (fun p => (x :: p.1, p.2))

/-- str::split: splits at every occurrence of the separator. -/
def splitChar (c : Char) : Str → List Str
  | [] => [[]]
  | x :: xs =>
    match splitChar c xs with
    | [] => [[x]]
    | r :: rs => if x = c then [] :: r :: rs else (x :: r) :: rs

/-- The value of one hex digit, as the hex crate accepts them. -/
def hexDigitVal? (c : Char) : Option Nat :=
  if ('0' ≤ c ∧ c ≤ '9') then some (c.toNat - '0'.toNat)
  else if ('a' ≤ c ∧ c ≤ 'f') then some (c.toNat - 'a'.toNat + 10)
  else if ('A' ≤ c ∧ c ≤ 'F') then some (c.toNat - 'A'.toNat + 10)
  else none

/-- hex::decode: pairs of hex digits become bytes; odd length or a non-hex
character fails. -/
def hexDecode : Str → Option (List Nat)
  | [] => some []
  | [_] => none
  | c1 :: c2 :: rest => do
    let h1 ← hexDigitVal? c1
    let h2 ← hexDigitVal? c2
    let r ← hexDecode rest
    pure ((h1 * 16 + h2) :: r)

/-- The algorithm tag of every identifier this program produces. -/
def sha256Tag : Str := "sha256".toList

/-- ssri::Integrity: an algorithm tag plus digest bytes; equal iff both
components are equal. -/
structure Integrity : Type where
  algorithm : Str
  digest : List Nat
deriving DecidableEq

/-- ssri Integrity::from_hex with Algorithm::Sha256: hex-decodes the digest. -/
def Integrity.from_hex (s : Str) : Option Integrity :=
  (hexDecode s).map (fun d => { algorithm := sha256Tag, digest := d })

/-- ssri Integrity::from over bytes: computes the digest of the input. The
hash function is a parameter of the model. -/
def Integrity.compute (hash : List Nat → List Nat) (b : List Nat) : Integrity :=
  { algorithm := sha256Tag, digest := hash b }

/-- ssri Integrity::check: recomputes the digest and compares. -/
def Integrity.checkBytes (hash : List Nat → List Nat) (i : Integrity)
    (b : List Nat) : Bool :=
  decide (Integrity.compute hash b = i)

/-- src/storage.rs Gem: one resolved package-version-platform record. -/
structure Gem : Type where
  full_name : Str
  name : Str
  version : Str
  platform : Str
  package_integrity : Integrity
  metadata_gz_integrity : Option Integrity
  stored : Bool
deriving DecidableEq

/-- The checksum-extraction loop of parse_info_line: the last comma-separated
item starting with the checksum key supplies the hex digest (the text between
the first and second colon of the item). -/
def extractChecksum (metadata : Str) : Str :=
  (splitChar ',' metadata).foldl
    (fun acc item =>
      if ("checksum:".toList).isPrefixOf item then
        ((splitChar ':' item).get? 1).getD []
      else acc)
    []

/-- src/storage.rs parse_info_line: parses one compact-index info line.
A missing space or pipe separator is a miette error; a checksum value that
fails to hex-decode hits an unwrap and panics. -/
def parse_info_line (name line : Str) : RunM Gem := do
  let vr ← match splitOnce ' ' line with
    | some p => pure p
    | none => throw "Invalid line format"
  let dm ← match splitOnce '|' vr.2 with
    | some p => pure p
    | none => throw "Invalid line format"
  let vp := (splitOnce '-' vr.1).getD (vr.1, "ruby".toList)
  let full_name :=
    if vp.2 = "ruby".toList then name ++ ('-' :: vp.1)
    else name ++ ('-' :: vp.1) ++ ('-' :: vp.2)
  let integrity ← match Integrity.from_hex (extractChecksum dm.2) with
    | some i => pure i
    | none => rpanic
  pure { full_name := full_name, name := name, version := vp.1,
         platform := vp.2, package_integrity := integrity,
         metadata_gz_integrity := none, stored := false }

/-- src/storage.rs Namespace: every known version of one package name. -/
structure Namespace : Type where
  name : Str
  info_checksum : Str
  versions : List (Str × Gem)
deriving DecidableEq

/-- One iteration of the merge loop: the accumulating map receives the entry
when its key is absent, or when the entry is stored and the present one is
not. -/
def mergeStep (acc : List (Str × Gem)) (kv : Str × Gem) : List (Str × Gem) :=
  match lookupA kv.1 acc with
  | some otherVersion =>
    if kv.2.stored && !otherVersion.stored then insertRep kv.1 kv.2 acc else acc
  | none => insertRep kv.1 kv.2 acc

/-- The merge loop of Namespace::merge: folds the receiver entries into a
clone of the argument map. -/
def mergeInto (base : List (Str × Gem)) (entries : List (Str × Gem)) :
    List (Str × Gem) :=
  entries.foldl mergeStep base

/-- src/storage.rs Namespace::merge: other.versions is the base; an entry of
self wins when it is stored and the base entry for its key is absent or not
stored. Only the versions field of the receiver is assigned; the argument is
taken by shared reference in the source and is read-only. -/
def Namespace.merge (self other : Namespace) : Namespace :=
  { self with versions := mergeInto other.versions self.versions }

/-- src/storage.rs Index: one mirrored source. -/
structure Index : Type where
  source : Str
  gems : List (Str × Namespace)
deriving DecidableEq

/-- An HTTP response as the engine consumes it: status code, the optional
ETag header, and the body text. -/
structure Response : Type where
  status : Nat
  etag : Option Str
  body : Str
deriving DecidableEq

/-- The double-quote character. -/
def quoteChar : Char := Char.ofNat 34

/-- The carriage-return character. -/
def crChar : Char := Char.ofNat 13

/-- The line-feed character. -/
def nlChar : Char := Char.ofNat 10

/-- str::trim_start_matches with the weak-validator marker: strips every
leading occurrence. -/
def trimStartMatchesW : Str → Str
  | 'W' :: '/' :: rest => trimStartMatchesW rest
  | cs => cs

/-- str::trim_matches with the double-quote character: strips every leading
and trailing occurrence. -/
def trimQuotes (cs : Str) : Str :=
  ((cs.dropWhile (fun c => c = quoteChar)).reverse.dropWhile
    (fun c => c = quoteChar)).reverse

/-- The per-line carriage-return strip performed by str::lines. -/
def stripCR (l : Str) : Str :=
  if l.getLast? = some crChar then l.dropLast else l

/-- str::lines: split on line feeds, drop an empty final segment, strip a
trailing carriage return from each line. -/
def rustLines (cs : Str) : List Str :=
  let segs := splitChar nlChar cs
  let segs :=
    match segs.getLast? with
    | some [] => segs.dropLast
    | _ => segs
  segs.map stripCR

/-- The sentinel scan of update_store: the lines after the first line equal
to three dashes, or none when the sentinel is missing. -/
def afterSentinel : List Str → Option (List Str)
  | [] => none
  | l :: rest => if l = "---".toList then some rest else afterSentinel rest

/-- The collect step over an info page: parse each line and key the gems by
full_name, a later line with the same full_name winning; the first parse
error aborts, mirroring collect over Result. -/
def parsePageLines (name : Str) : List Str → List (Str × Gem) →
    RunM (List (Str × Gem))
  | [], acc => pure acc
  | l :: rest, acc => do
    let gem ← parse_info_line name l
    parsePageLines name rest (insertRep gem.full_name gem acc)

/-- The diff check of update_store: skip when the stored checksum equals the
listed one, or when it is its double-quoted form. The byte slice taken for
the quoted comparison panics when the stored checksum is shorter than two
characters, which can only happen for the one-character quote string. -/
def diffSkip (ck listed : Str) : RunM Bool :=
  if ck = listed then pure true
  else if ck.head? = some quoteChar ∧ ck.getLast? = some quoteChar then
    if 2 ≤ ck.length then
      pure (decide ((ck.drop 1).take (ck.length - 2) = listed))
    else rpanic
  else pure false

/-- The diff check applied to the gems map: an absent namespace never skips. -/
def diffSkipFor (gems : List (Str × Namespace)) (name listed : Str) :
    RunM Bool :=
  match lookupA name gems with
  | some ex => diffSkip ex.info_checksum listed
  | none => pure false

/-- The part of the page-fetch step after the ETag header has been read: a
non-success status is a fatal error, the body is parsed after the sentinel,
and the merge-or-insert step runs. When a local namespace exists the merged
namespace is computed and dropped without updating the map. -/
def pageStepBody (resp : Response) (gems : List (Str × Namespace))
    (name etagRaw : Str) : RunM (List (Str × Namespace)) := do
  let info_checksum := trimQuotes (trimStartMatchesW etagRaw)
  if resp.status ≠ 200 then throw "Failed to fetch gem"
  else do
    let ls ← match afterSentinel (rustLines resp.body) with
      | some ls => pure ls
      | none => throw "Failed to find separator in info"
    let versions ← parsePageLines name ls []
    let ns : Namespace :=
      { name := name, info_checksum := info_checksum, versions := versions }
    match lookupA name gems with
    | some ex =>
      if ex.info_checksum ≠ ns.info_checksum then
        let _merged := Namespace.merge ns ex
        pure gems
      else pure gems
    | none => pure (insertRep name ns gems)

/-- The page-fetch part of the per-namespace loop of update_store: a
transport error is logged and the namespace left unchanged; otherwise the
new checksum is read from the ETag header, unwrapped before the status
check, and the rest of the step runs. -/
def pageStep (fetchPage : Except String Response)
    (gems : List (Str × Namespace)) (name : Str) :
    RunM (List (Str × Namespace)) :=
  match fetchPage with
  | Except.error _ => pure gems
  | Except.ok resp =>
    (match resp.etag with
     | some t => pure t
     | none => rpanic) >>=
      fun etagRaw => pageStepBody resp gems name etagRaw

/-- The dead second equality check of the loop (source lines 180 to 185):
subsumed by the diff check that precedes it. -/
def deadCheck (gems : List (Str × Namespace)) (name listed : Str) : Bool :=
  match lookupA name gems with
  | some ex => decide (ex.info_checksum = listed)
  | none => false

/-- One iteration of the per-namespace loop of update_store: the diff check,
the dead second equality check, then the page fetch. Returns the gems map
and whether a page fetch was issued. -/
def syncNamespace (fetchPage : Except String Response)
    (gems : List (Str × Namespace)) (name listed : Str) :
    RunM (List (Str × Namespace) × Bool) := do
  let skip ← diffSkipFor gems name listed
  if skip then pure (gems, false)
  else if deadCheck gems name listed then pure (gems, false)
  else do
    let gems2 ← pageStep fetchPage gems name
    pure (gems2, true)

/-- The loop of update_store over the listing pairs, in order, accumulating
the names for which a page fetch was issued. -/
def syncNamespaces (fetch : Str → Except String Response) :
    List (Str × Str) → List (Str × Namespace) → List Str →
    RunM (List (Str × Namespace) × List Str)
  | [], gems, fetched => pure (gems, fetched)
  | (name, ck) :: rest, gems, fetched => do
    let r ← syncNamespace (fetch name) gems name ck
    syncNamespaces fetch rest r.1 (if r.2 then fetched ++ [name] else fetched)

/-- src/storage.rs MemoryStore: the ephemeral store, an index list plus a
blob table keyed by identifier. -/
structure MemoryStore : Type where
  indices : List Index
  blobs : List (Integrity × List Nat)
deriving DecidableEq

/-- MemoryStore::list_indices: a clone of the working set. -/
def MemoryStore.list_indices (s : MemoryStore) : Except String (List Index) :=
  Except.ok s.indices

/-- MemoryStore::store_blob: computes the identifier and files the bytes
under it. -/
def MemoryStore.store_blob (hash : List Nat → List Nat) (s : MemoryStore)
    (b : List Nat) : MemoryStore × Integrity :=
  let i := Integrity.compute hash b
  ({ s with blobs := insertRep i b s.blobs }, i)

/-- MemoryStore::get_blob: an absent blob is a miette error; a present blob
is re-verified, and a failed check hits an unwrap and panics. -/
def MemoryStore.get_blob (hash : List Nat → List Nat) (s : MemoryStore)
    (i : Integrity) : RunM (List Nat) :=
  match lookupA i s.blobs with
  | some b => if Integrity.checkBytes hash i b then pure b else rpanic
  | none => throw "Blob not found"

/-- MemoryStore::with_indices: mem::take leaves an empty index list behind,
and the mutated list is written back only when the closure succeeds. The
closure reaches the store only through its blob table, as the update_store
closure does, and through the borrowed index list. -/
def MemoryStore.with_indices
    (f : List (Integrity × List Nat) → List Index →
      List (Integrity × List Nat) × List Index × Except String Unit)
    (s : MemoryStore) : MemoryStore × Except String (List Index) :=
  let taken := s.indices
  let s1 : MemoryStore := { s with indices := [] }
  match f s1.blobs taken with
  | (blobs2, _, Except.error e) => ({ s1 with blobs := blobs2 }, Except.error e)
  | (blobs2, indices2, Except.ok _) =>
    ({ s1 with blobs := blobs2, indices := indices2 }, Except.ok indices2)

/-- src/storage.rs FsStore, as durable state: the manifest file content
(none when indices.json is absent) and the cacache blob area. -/
structure FsState : Type where
  indicesFile : Option (List Index)
  blobs : List (Integrity × List Nat)
deriving DecidableEq

/-- FsStore::list_indices: an absent manifest reads as the empty list. -/
def FsState.list_indices (s : FsState) : Except String (List Index) :=
  match s.indicesFile with
  | none => Except.ok []
  | some l => Except.ok l

/-- Modelled from the spec: FsStore::get_blob delegates to the cacache crate
(read_hash_sync), which is not under src/. Per the spec an absent blob fails
NotFound and the bytes are re-verified on read, failing IntegrityMismatch as
an error result when corrupted. -/
def FsState.get_blob (hash : List Nat → List Nat) (s : FsState)
    (i : Integrity) : RunM (List Nat) :=
  match lookupA i s.blobs with
  | some b =>
    if Integrity.checkBytes hash i b then pure b else throw "IntegrityMismatch"
  | none => throw "NotFound"

/-- FsStore::with_indices: loads the manifest, runs the closure, and rewrites
indices.json only after the closure succeeds. -/
def FsState.with_indices
    (f : List (Integrity × List Nat) → List Index →
      List (Integrity × List Nat) × List Index × Except String Unit)
    (s : FsState) : FsState × Except String (List Index) :=
  let indices := match s.indicesFile with | none => [] | some l => l
  match f s.blobs indices with
  | (blobs2, _, Except.error e) => ({ s with blobs := blobs2 }, Except.error e)
  | (blobs2, indices2, Except.ok _) =>
    ({ s with blobs := blobs2, indicesFile := some indices2 },
      Except.ok indices2)

/-! Infrastructure lemmas about RunM and the association-list operations. -/

theorem runm_ext {α : Type} {x y : RunM α} (h : x.run = y.run) : x = y := h

theorem runm_run_pure {α : Type} (a : α) :
    (pure a : RunM α).run = some (Except.ok a) := rfl

theorem runm_run_throw {α : Type} (e : String) :
    (throw e : RunM α).run = some (Except.error e) := rfl

theorem runm_run_panic {α : Type} : (rpanic : RunM α).run = none := rfl

theorem runm_cases {α : Type} (x : RunM α) :
    x = rpanic ∨ (∃ e, x = throw e) ∨ (∃ a, x = pure a) := by
  cases hx : x.run with
  | none => exact Or.inl (runm_ext hx)
  | some r =>
    cases r with
    | error e => exact Or.inr (Or.inl ⟨e, runm_ext hx⟩)
    | ok a => exact Or.inr (Or.inr ⟨a, runm_ext hx⟩)

theorem runm_pure_bind {α β : Type} (a : α) (k : α → RunM β) :
    ((pure a : RunM α) >>= k) = k a := rfl

theorem runm_throw_bind {α β : Type} (e : String) (k : α → RunM β) :
    ((throw e : RunM α) >>= k) = throw e := rfl

theorem runm_panic_bind {α β : Type} (k : α → RunM β) :
    ((rpanic : RunM α) >>= k) = rpanic := rfl

theorem runm_pure_ne_throw {α : Type} (a : α) (e : String) :
    (pure a : RunM α) ≠ throw e := by
  intro h
  have h2 := congrArg ExceptT.run h
  rw [runm_run_pure, runm_run_throw] at h2
  exact Except.noConfusion (Option.some.inj h2)

theorem runm_pure_ne_panic {α : Type} (a : α) :
    (pure a : RunM α) ≠ rpanic := by
  intro h
  have h2 := congrArg ExceptT.run h
  rw [runm_run_pure, runm_run_panic] at h2
  exact Option.noConfusion h2

theorem runm_throw_ne_panic {α : Type} (e : String) :
    (throw e : RunM α) ≠ rpanic := by
  intro h
  have h2 := congrArg ExceptT.run h
  rw [runm_run_throw, runm_run_panic] at h2
  exact Option.noConfusion h2

theorem runm_pure_inj {α : Type} {a b : α} (h : (pure a : RunM α) = pure b) :
    a = b := by
  have h2 := congrArg ExceptT.run h
  rw [runm_run_pure, runm_run_pure] at h2
  exact Except.ok.inj (Option.some.inj h2)

theorem lookupA_insertRep_self {κ α : Type} [DecidableEq κ] (k : κ) (v : α)
    (l : List (κ × α)) : lookupA k (insertRep k v l) = some v := by
  simp [insertRep, lookupA]

theorem lookupA_removeKey_ne {κ α : Type} [DecidableEq κ] {k k' : κ}
    (l : List (κ × α)) (h : ¬ k' = k) :
    lookupA k (removeKey k' l) = lookupA k l := by
  induction l with
  | nil => rfl
  | cons p rest ih =>
    by_cases hp : p.1 = k'
    · have hpk : ¬ p.1 = k := fun hk => h (hp.symm.trans hk)
      simp [removeKey, hp, lookupA, hpk, ih, h]
    · by_cases hk : p.1 = k
      · have hkk : ¬ k = k' := fun hh => h hh.symm
        simp [removeKey, hp, lookupA, hk, hkk]
      · simp [removeKey, hp, lookupA, hk, ih]

theorem lookupA_insertRep_ne {κ α : Type} [DecidableEq κ] {k k' : κ} (v : α)
    (l : List (κ × α)) (h : ¬ k' = k) :
    lookupA k (insertRep k' v l) = lookupA k l := by
  simp [insertRep, lookupA, h]
  exact lookupA_removeKey_ne l h

theorem mergeStep_some {acc : List (Str × Gem)} {kv : Str × Gem} {ov : Gem}
    (hm : lookupA kv.1 acc = some ov) :
    mergeStep acc kv =
      if kv.2.stored && !ov.stored then insertRep kv.1 kv.2 acc else acc := by
  unfold mergeStep
  rw [hm]

theorem mergeStep_none {acc : List (Str × Gem)} {kv : Str × Gem}
    (hm : lookupA kv.1 acc = none) :
    mergeStep acc kv = insertRep kv.1 kv.2 acc := by
  unfold mergeStep
  rw [hm]

theorem lookupA_mergeStep_ne {k : Str} (acc : List (Str × Gem))
    (kv : Str × Gem) (h : ¬ kv.1 = k) :
    lookupA k (mergeStep acc kv) = lookupA k acc := by
  cases hm : lookupA kv.1 acc with
  | none =>
    rw [mergeStep_none hm]
    exact lookupA_insertRep_ne _ _ h
  | some ov =>
    rw [mergeStep_some hm]
    by_cases hc : (kv.2.stored && !ov.stored) = true
    · rw [if_pos hc]
      exact lookupA_insertRep_ne _ _ h
    · rw [if_neg hc]

theorem lookupA_mergeStep_self (acc : List (Str × Gem)) (kv : Str × Gem) :
    lookupA kv.1 (mergeStep acc kv) =
      (match lookupA kv.1 acc with
       | some ov => if kv.2.stored && !ov.stored then some kv.2 else some ov
       | none => some kv.2) := by
  cases hm : lookupA kv.1 acc with
  | none =>
    rw [mergeStep_none hm]
    exact lookupA_insertRep_self _ _ _
  | some ov =>
    rw [mergeStep_some hm]
    by_cases hc : (kv.2.stored && !ov.stored) = true
    · rw [if_pos hc, lookupA_insertRep_self]
      exact (if_pos hc).symm
    · rw [if_neg hc, hm]
      exact (if_neg hc).symm

theorem lookupA_mergeInto_not_mem (entries : List (Str × Gem))
    (base : List (Str × Gem)) (k : Str) (h : ¬ k ∈ entries.map Prod.fst) :
    lookupA k (mergeInto base entries) = lookupA k base := by
  induction entries generalizing base with
  | nil => rfl
  | cons e es ih =>
    have h1 : ¬ e.1 = k :=
      fun he => h (List.mem_cons.mpr (Or.inl he.symm))
    have h2 : ¬ k ∈ es.map Prod.fst :=
      fun hm => h (List.mem_cons.mpr (Or.inr hm))
    have hfold : mergeInto base (e :: es) = mergeInto (mergeStep base e) es :=
      rfl
    rw [hfold, ih _ h2, lookupA_mergeStep_ne _ _ h1]

theorem lookupA_mergeInto (entries : List (Str × Gem))
    (base : List (Str × Gem)) (k : Str)
    (hnd : (entries.map Prod.fst).Nodup) :
    lookupA k (mergeInto base entries) =
      (match lookupA k entries, lookupA k base with
       | some v, some ov => if v.stored && !ov.stored then some v else some ov
       | some v, none => some v
       | none, o => o) := by
  induction entries generalizing base with
  | nil => cases hb : lookupA k base <;> simp [mergeInto, lookupA, hb]
  | cons e es ih =>
    obtain ⟨hmem, hnd2⟩ := List.nodup_cons.mp hnd
    have hfold : mergeInto base (e :: es) = mergeInto (mergeStep base e) es :=
      rfl
    by_cases hk : e.1 = k
    · have hmem2 : ¬ k ∈ es.map Prod.fst := by
        rw [← hk]
        exact hmem
      rw [hfold, lookupA_mergeInto_not_mem es _ _ hmem2, ← hk,
        lookupA_mergeStep_self]
      have hl : lookupA e.1 (e :: es) = some e.2 := by
        simp [lookupA]
      rw [hl]
      cases hb : lookupA e.1 base <;> rfl
    · rw [hfold, ih _ hnd2, lookupA_mergeStep_ne _ _ hk]
      have hl : lookupA k (e :: es) = lookupA k es := by
        simp [lookupA, hk]
      rw [hl]

/-- C3: Namespace::merge takes the remote map as the base; a key present in
the local map keeps the local entry exactly when the local entry is stored
and the remote entry for that key is absent or unstored, and otherwise maps
to the remote entry; keys present only in the local map are preserved. In
particular a stored local gem survives a merge against a remote namespace
lacking a stored entry for its key. Key uniqueness of the local map is the
HashMap representation invariant. -/
theorem c3_merge_remote_base_local_stored_wins :
    (∀ (lns rns : Namespace) (k : Str),
        (lns.versions.map Prod.fst).Nodup →
        lookupA k (Namespace.merge lns rns).versions =
          (match lookupA k lns.versions, lookupA k rns.versions with
           | some v, some ov =>
             if v.stored && !ov.stored then some v else some ov
           | some v, none => some v
           | none, o => o))
    ∧ (∀ (L R : Namespace) (k : Str) (g : Gem),
        (L.versions.map Prod.fst).Nodup →
        lookupA k L.versions = some g →
        g.stored = true →
        (∀ rg, lookupA k R.versions = some rg → rg.stored = false) →
        lookupA k (Namespace.merge L R).versions = some g) := by
  have hmain : ∀ (lns rns : Namespace) (k : Str),
      (lns.versions.map Prod.fst).Nodup →
      lookupA k (Namespace.merge lns rns).versions =
        (match lookupA k lns.versions, lookupA k rns.versions with
         | some v, some ov =>
           if v.stored && !ov.stored then some v else some ov
         | some v, none => some v
         | none, o => o) := by
    intro lns rns k hnd
    exact lookupA_mergeInto lns.versions rns.versions k hnd
  refine ⟨hmain, ?_⟩
  intro L R k g hnd hl hg hr
  rw [hmain L R k hnd, hl]
  cases hrr : lookupA k R.versions with
  | none => rfl
  | some rg =>
    have : rg.stored = false := hr rg hrr
    simp [hg, this]

/-- The stored local gem of the C3 witness. -/
def gemStoredW : Gem :=
  { full_name := "a-1".toList, name := "a".toList, version := "1".toList,
    platform := "ruby".toList,
    package_integrity := { algorithm := sha256Tag, digest := [] },
    metadata_gz_integrity := none, stored := true }

/-- The local namespace of the C3 witness. -/
def nsLocalW : Namespace :=
  { name := "a".toList, info_checksum := "c1".toList,
    versions := [("a-1".toList, gemStoredW)] }

/-- The remote namespace of the C3 witness: no entry for the stored key. -/
def nsRemoteW : Namespace :=
  { name := "a".toList, info_checksum := "c2".toList, versions := [] }

theorem c3_witness :
    (nsLocalW.versions.map Prod.fst).Nodup ∧
    lookupA "a-1".toList (Namespace.merge nsLocalW nsRemoteW).versions =
      some gemStoredW :=
  ⟨by decide,
   c3_merge_remote_base_local_stored_wins.2 nsLocalW nsRemoteW
     "a-1".toList gemStoredW (by decide) (by decide) (by decide)
     (fun rg h => by simp [nsRemoteW, lookupA] at h)⟩

/-- C10: Namespace::merge assigns only the versions field of the receiver:
its name and info_checksum are unchanged. The argument is taken by shared
reference in the source and is read-only, which the pure embedding shows by
construction. -/
theorem c10_merge_mutates_only_versions (a b : Namespace) :
    (Namespace.merge a b).name = a.name ∧
    (Namespace.merge a b).info_checksum = a.info_checksum :=
  ⟨rfl, rfl⟩

theorem removeKey_idem {κ α : Type} [DecidableEq κ] (k : κ)
    (l : List (κ × α)) : removeKey k (removeKey k l) = removeKey k l := by
  induction l with
  | nil => rfl
  | cons p rest ih =>
    by_cases hp : p.1 = k
    · simp [removeKey, hp, ih]
    · simp [removeKey, hp, ih]

/-- C6: MemoryStore::store_blob returns the identifier computed from the
bytes, a following get_blob of that identifier returns the same bytes, and
storing the same bytes a second time succeeds, returns the same identifier,
and leaves the store state unchanged. -/
theorem c6_store_blob_roundtrip_idempotent (hash : List Nat → List Nat)
    (s : MemoryStore) (b : List Nat) :
    (MemoryStore.store_blob hash s b).2 = Integrity.compute hash b ∧
    MemoryStore.get_blob hash (MemoryStore.store_blob hash s b).1
      (MemoryStore.store_blob hash s b).2 = pure b ∧
    MemoryStore.store_blob hash (MemoryStore.store_blob hash s b).1 b =
      MemoryStore.store_blob hash s b := by
  refine ⟨rfl, ?_, ?_⟩
  · have hl : lookupA (Integrity.compute hash b)
        (insertRep (Integrity.compute hash b) b s.blobs) = some b :=
      lookupA_insertRep_self _ _ _
    simp [MemoryStore.get_blob, MemoryStore.store_blob, hl,
      Integrity.checkBytes]
  · simp [MemoryStore.store_blob, insertRep, removeKey, removeKey_idem]

/-- The single index of the C1 failing input. -/
def idxC1 : Index := { source := "src-a".toList, gems := [] }

/-- The C1 failing input: an ephemeral store with one index. -/
def memC1 : MemoryStore := { indices := [idxC1], blobs := [] }

/-- The C1 failing mutation: touches nothing and fails. -/
def fFailC1 : List (Integrity × List Nat) → List Index →
    List (Integrity × List Nat) × List Index × Except String Unit :=
  fun blobs inds => (blobs, inds, Except.error "mutation failed")

/-- C1 at the failing input: before the call the ephemeral store lists one
index; the mutation fails without touching anything; afterwards list_indices
returns the empty list (mem::take left it behind), not the state from before
the call. -/
theorem c1_memory_with_indices_loses_state_on_error :
    MemoryStore.list_indices memC1 = Except.ok [idxC1] ∧
    (MemoryStore.with_indices fFailC1 memC1).2 =
      Except.error "mutation failed" ∧
    MemoryStore.list_indices (MemoryStore.with_indices fFailC1 memC1).1 =
      Except.ok [] ∧
    decide (([] : List Index) = [idxC1]) = false :=
  ⟨rfl, rfl, rfl, by decide⟩

/-- The pre-existing local namespace of the C2 failing input. -/
def nsOldC2 : Namespace :=
  { name := "rails".toList, info_checksum := "old".toList, versions := [] }

/-- The gems map of the C2 failing input. -/
def gemsC2 : List (Str × Namespace) := [("rails".toList, nsOldC2)]

/-- The page response of the C2 failing input: success, a fresh quoted ETag,
and one parsable info line after the sentinel. -/
def respC2 : Response :=
  { status := 200,
    etag := some (quoteChar :: ("etag2".toList ++ [quoteChar])),
    body := "---".toList ++ (nlChar :: "1.0 |checksum:ab".toList) }

/-- The fetch oracle of the C2 failing input. -/
def fetchC2 : Str → Except String Response := fun _ => Except.ok respC2

/-- C2 at the failing input: the listing marks rails as changed, the page
fetch succeeds with a fresh checksum, yet after the run the gems map is
unchanged: the old entry with the old info_checksum remains and the merged
namespace was discarded. A page fetch was issued for rails. -/
theorem c2_merged_namespace_discarded :
    (syncNamespaces fetchC2 [("rails".toList, "new".toList)] gemsC2 []).run =
      some (Except.ok (gemsC2, ["rails".toList])) ∧
    lookupA "rails".toList gemsC2 = some nsOldC2 ∧
    nsOldC2.info_checksum = "old".toList := by
  refine ⟨?_, rfl, rfl⟩
  rfl

theorem diffSkipFor_some {gems : List (Str × Namespace)} {name : Str}
    {ex : Namespace} (ck : Str) (h : lookupA name gems = some ex) :
    diffSkipFor gems name ck = diffSkip ex.info_checksum ck := by
  unfold diffSkipFor
  rw [h]

theorem diffSkipFor_none {gems : List (Str × Namespace)} {name : Str}
    (ck : Str) (h : lookupA name gems = none) :
    diffSkipFor gems name ck = pure false := by
  unfold diffSkipFor
  rw [h]

theorem deadCheck_none {gems : List (Str × Namespace)} {name : Str}
    (ck : Str) (h : lookupA name gems = none) :
    deadCheck gems name ck = false := by
  unfold deadCheck
  rw [h]

theorem diffSkip_self (ck : Str) : diffSkip ck ck = pure true := by
  unfold diffSkip
  rw [if_pos rfl]

theorem diffSkip_quoted (ck : Str) :
    diffSkip (quoteChar :: (ck ++ [quoteChar])) ck = pure true := by
  unfold diffSkip
  have hne : ¬ (quoteChar :: (ck ++ [quoteChar])) = ck := by
    intro h
    have hlen := congrArg List.length h
    simp at hlen
    omega
  rw [if_neg hne]
  have hhead : (quoteChar :: (ck ++ [quoteChar])).head? = some quoteChar :=
    rfl
  have hlast : (quoteChar :: (ck ++ [quoteChar])).getLast? =
      some quoteChar := by
    show ((quoteChar :: ck) ++ quoteChar :: []).getLast? = some quoteChar
    rw [List.getLast?_append_cons]
    rfl
  rw [if_pos ⟨hhead, hlast⟩]
  have hlen2 : 2 ≤ (quoteChar :: (ck ++ [quoteChar])).length := by
    simp
  rw [if_pos hlen2]
  have hdrop : (quoteChar :: (ck ++ [quoteChar])).drop 1 =
      ck ++ [quoteChar] := rfl
  have hsub : (quoteChar :: (ck ++ [quoteChar])).length - 2 = ck.length := by
    simp
  rw [hdrop, hsub]
  have htake : (ck ++ [quoteChar]).take ck.length = ck := by
    simp
  rw [htake]
  simp

theorem runm_bind_pure_pair {α : Type} (x : RunM α) (c : Bool)
    (p : α × Bool) (h : (x >>= fun a => pure (a, c)) = pure p) :
    p.2 = c := by
  rcases runm_cases x with hx | ⟨e, hx⟩ | ⟨a, hx⟩
  · rw [hx, runm_panic_bind] at h
    exact (runm_pure_ne_panic p h.symm).elim
  · rw [hx, runm_throw_bind] at h
    exact (runm_pure_ne_throw p e h.symm).elim
  · rw [hx, runm_pure_bind] at h
    have h2 := runm_pure_inj h
    rw [← h2]

/-- C4: the diff step skips a namespace, issuing no page fetch and leaving
the gems map unchanged, when the locally stored info_checksum equals the
listed checksum, and likewise when the stored value is the double-quoted
form of the listed checksum; a namespace absent locally always falls through
to the page-fetch step, and every completed iteration for it reports that a
page fetch was issued. -/
theorem c4_checksum_skip :
    (∀ (gems : List (Str × Namespace)) (name ck : Str)
        (f : Except String Response) (ex : Namespace),
        lookupA name gems = some ex → ex.info_checksum = ck →
        syncNamespace f gems name ck = pure (gems, false))
    ∧ (∀ (gems : List (Str × Namespace)) (name ck : Str)
        (f : Except String Response) (ex : Namespace),
        lookupA name gems = some ex →
        ex.info_checksum = quoteChar :: (ck ++ [quoteChar]) →
        syncNamespace f gems name ck = pure (gems, false))
    ∧ (∀ (gems : List (Str × Namespace)) (name ck : Str)
        (f : Except String Response),
        lookupA name gems = none →
        syncNamespace f gems name ck =
          (pageStep f gems name >>= fun gems2 => pure (gems2, true))
        ∧ ∀ p, syncNamespace f gems name ck = pure p → p.2 = true) := by
  refine ⟨?_, ?_, ?_⟩
  · intro gems name ck f ex h1 h2
    have hskip : diffSkipFor gems name ck = pure true := by
      rw [diffSkipFor_some ck h1, h2, diffSkip_self]
    unfold syncNamespace
    rw [hskip, runm_pure_bind]
    rfl
  · intro gems name ck f ex h1 h2
    have hskip : diffSkipFor gems name ck = pure true := by
      rw [diffSkipFor_some ck h1, h2, diffSkip_quoted]
    unfold syncNamespace
    rw [hskip, runm_pure_bind]
    rfl
  · intro gems name ck f h
    have heq : syncNamespace f gems name ck =
        (pageStep f gems name >>= fun gems2 => pure (gems2, true)) := by
      unfold syncNamespace
      rw [diffSkipFor_none ck h, runm_pure_bind, deadCheck_none ck h]
      rfl
    refine ⟨heq, ?_⟩
    intro p hp
    rw [heq] at hp
    exact runm_bind_pure_pair _ _ _ hp

/-- The namespace of the C4 witness, with a quoted stored checksum. -/
def nsSkipW : Namespace :=
  { name := "b".toList,
    info_checksum := quoteChar :: ("ck1".toList ++ [quoteChar]),
    versions := [] }

/-- The gems map of the C4 witness. -/
def gemsSkipW : List (Str × Namespace) := [("b".toList, nsSkipW)]

/-- A fetch outcome for the C4 witness; the skip must ignore it. -/
def fetchSkipW : Except String Response := Except.error "unreachable"

theorem c4_witness :
    lookupA "b".toList gemsSkipW = some nsSkipW ∧
    nsSkipW.info_checksum = quoteChar :: ("ck1".toList ++ [quoteChar]) ∧
    syncNamespace fetchSkipW gemsSkipW "b".toList "ck1".toList =
      pure (gemsSkipW, false) :=
  ⟨rfl, rfl,
   c4_checksum_skip.2.1 gemsSkipW "b".toList "ck1".toList fetchSkipW nsSkipW
     rfl rfl⟩

theorem memGetBlob_none {hash : List Nat → List Nat} {s : MemoryStore}
    {i : Integrity} (h : lookupA i s.blobs = none) :
    MemoryStore.get_blob hash s i = throw "Blob not found" := by
  unfold MemoryStore.get_blob
  rw [h]

theorem memGetBlob_some {hash : List Nat → List Nat} {s : MemoryStore}
    {i : Integrity} {b : List Nat} (h : lookupA i s.blobs = some b) :
    MemoryStore.get_blob hash s i =
      if Integrity.checkBytes hash i b then pure b else rpanic := by
  unfold MemoryStore.get_blob
  rw [h]

theorem fsGetBlob_none {hash : List Nat → List Nat} {t : FsState}
    {i : Integrity} (h : lookupA i t.blobs = none) :
    FsState.get_blob hash t i = throw "NotFound" := by
  unfold FsState.get_blob
  rw [h]

theorem fsGetBlob_some {hash : List Nat → List Nat} {t : FsState}
    {i : Integrity} {b : List Nat} (h : lookupA i t.blobs = some b) :
    FsState.get_blob hash t i =
      if Integrity.checkBytes hash i b then pure b
      else throw "IntegrityMismatch" := by
  unfold FsState.get_blob
  rw [h]

/-- The identifier of the C5 counterexample: it claims digest one. -/
def integC5 : Integrity := { algorithm := sha256Tag, digest := [1] }

/-- The corrupted ephemeral store of the C5 counterexample: the bytes filed
under the identifier hash to a different digest. -/
def memC5 : MemoryStore := { indices := [], blobs := [(integC5, [2])] }

/-- The concrete hash function of the C5 counterexample and witness. -/
def hashIdC5 : List Nat → List Nat := fun b => b

/-- C5 counterexample: on the corrupted ephemeral store, get_blob ends in a
panic (the run is none), not in any error result, refuting that every store
fails with an IntegrityMismatch error on corruption. -/
theorem c5_counterexample_memory_get_blob_panics :
    lookupA integC5 memC5.blobs = some [2] ∧
    decide (Integrity.compute hashIdC5 [2] = integC5) = false ∧
    (MemoryStore.get_blob hashIdC5 memC5 integC5).run = none :=
  ⟨rfl, by decide, rfl⟩

/-- C5 amended: for every store, get_blob fails NotFound when no blob is
filed under the identifier; a present blob is re-verified against the
identifier, the durable store failing IntegrityMismatch as an error result
on corruption while the ephemeral store panics there; neither store ever
returns bytes that do not hash to the identifier. -/
theorem c5_get_blob_verifies :
    ∀ (hash : List Nat → List Nat) (s : MemoryStore) (t : FsState)
      (i : Integrity),
      (lookupA i s.blobs = none →
        MemoryStore.get_blob hash s i = throw "Blob not found")
      ∧ (lookupA i t.blobs = none →
        FsState.get_blob hash t i = throw "NotFound")
      ∧ (∀ b, MemoryStore.get_blob hash s i = pure b →
          Integrity.compute hash b = i)
      ∧ (∀ b, FsState.get_blob hash t i = pure b →
          Integrity.compute hash b = i)
      ∧ (∀ b, lookupA i s.blobs = some b →
          ¬ Integrity.compute hash b = i →
          MemoryStore.get_blob hash s i = rpanic)
      ∧ (∀ b, lookupA i t.blobs = some b →
          ¬ Integrity.compute hash b = i →
          FsState.get_blob hash t i = throw "IntegrityMismatch") := by
  intro hash s t i
  refine ⟨memGetBlob_none, fsGetBlob_none, ?_, ?_, ?_, ?_⟩
  · intro b hp
    cases hl : lookupA i s.blobs with
    | none =>
      rw [memGetBlob_none hl] at hp
      exact (runm_pure_ne_throw b _ hp.symm).elim
    | some b0 =>
      rw [memGetBlob_some hl] at hp
      by_cases hc : Integrity.checkBytes hash i b0 = true
      · rw [if_pos hc] at hp
        have hb := runm_pure_inj hp
        rw [← hb]
        exact of_decide_eq_true hc
      · rw [if_neg hc] at hp
        exact (runm_pure_ne_panic b hp.symm).elim
  · intro b hp
    cases hl : lookupA i t.blobs with
    | none =>
      rw [fsGetBlob_none hl] at hp
      exact (runm_pure_ne_throw b _ hp.symm).elim
    | some b0 =>
      rw [fsGetBlob_some hl] at hp
      by_cases hc : Integrity.checkBytes hash i b0 = true
      · rw [if_pos hc] at hp
        have hb := runm_pure_inj hp
        rw [← hb]
        exact of_decide_eq_true hc
      · rw [if_neg hc] at hp
        exact (runm_pure_ne_throw b _ hp.symm).elim
  · intro b hb hnc
    have hc : Integrity.checkBytes hash i b = false := by
      simp [Integrity.checkBytes, hnc]
    rw [memGetBlob_some hb, hc]
    rfl
  · intro b hb hnc
    have hc : Integrity.checkBytes hash i b = false := by
      simp [Integrity.checkBytes, hnc]
    rw [fsGetBlob_some hb, hc]
    rfl

/-- The empty ephemeral store of the C5 witness. -/
def memEmptyW : MemoryStore := { indices := [], blobs := [] }

/-- The corrupted durable blob area of the C5 witness. -/
def fsBadW : FsState := { indicesFile := none, blobs := [(integC5, [2])] }

theorem c5_witness :
    MemoryStore.get_blob hashIdC5 memEmptyW integC5 =
      throw "Blob not found" ∧
    FsState.get_blob hashIdC5 fsBadW integC5 =
      throw "IntegrityMismatch" :=
  ⟨(c5_get_blob_verifies hashIdC5 memEmptyW fsBadW integC5).1 rfl,
   (c5_get_blob_verifies hashIdC5 memEmptyW fsBadW integC5).2.2.2.2.2 [2]
     rfl (by decide)⟩

theorem pageStep_error (e : String) (gems : List (Str × Namespace))
    (name : Str) : pageStep (Except.error e) gems name = pure gems := rfl

theorem pageStep_ok {resp : Response} {t : Str} (he : resp.etag = some t)
    (gems : List (Str × Namespace)) (name : Str) :
    pageStep (Except.ok resp) gems name = pageStepBody resp gems name t := by
  show ((match resp.etag with
      | some t => pure t
      | none => rpanic) >>=
      fun etagRaw => pageStepBody resp gems name etagRaw) =
    pageStepBody resp gems name t
  rw [he]
  rfl

theorem pageStep_no_etag {resp : Response} (he : resp.etag = none)
    (gems : List (Str × Namespace)) (name : Str) :
    pageStep (Except.ok resp) gems name = rpanic := by
  show ((match resp.etag with
      | some t => pure t
      | none => rpanic) >>=
      fun etagRaw => pageStepBody resp gems name etagRaw) = rpanic
  rw [he]
  rfl

theorem pageStepBody_bad_status {resp : Response}
    (hst : ¬ resp.status = 200) (gems : List (Str × Namespace))
    (name etagRaw : Str) :
    pageStepBody resp gems name etagRaw = throw "Failed to fetch gem" := by
  unfold pageStepBody
  rw [if_pos hst]

theorem deadCheck_of_skip_false {gems : List (Str × Namespace)}
    {name ck : Str} (h : diffSkipFor gems name ck = pure false) :
    deadCheck gems name ck = false := by
  unfold deadCheck
  cases hl : lookupA name gems with
  | none => rfl
  | some ex =>
    by_cases hck : ex.info_checksum = ck
    · exfalso
      rw [diffSkipFor_some ck hl, hck, diffSkip_self] at h
      exact Bool.noConfusion (runm_pure_inj h)
    · simp [hck]

theorem syncNamespace_changed {gems : List (Str × Namespace)} {name ck : Str}
    (hsk : diffSkipFor gems name ck = pure false)
    (f : Except String Response) :
    syncNamespace f gems name ck =
      (pageStep f gems name >>= fun gems2 => pure (gems2, true)) := by
  unfold syncNamespace
  rw [hsk, runm_pure_bind, deadCheck_of_skip_false hsk]
  rfl

theorem syncNamespaces_cons (fetch : Str → Except String Response)
    (name ck : Str) (rest : List (Str × Str))
    (gems : List (Str × Namespace)) (fetched : List Str) :
    syncNamespaces fetch ((name, ck) :: rest) gems fetched =
      (syncNamespace (fetch name) gems name ck >>= fun r =>
        syncNamespaces fetch rest r.1
          (if r.2 then fetched ++ [name] else fetched)) := rfl

/-- C9 amended: in the page-fetch step a transport error for one namespace
is non-fatal, leaving that namespace unchanged and continuing with the rest
of the listing; a non-success HTTP status aborts the whole run, fatally with
the FetchError when the response carries an ETag header, while a response
without an ETag header crashes the run with a panic because the header is
unwrapped before the status check. -/
theorem c9_transport_nonfatal_status_fatal :
    (∀ (fetch : Str → Except String Response) (name ck : Str)
        (rest : List (Str × Str)) (gems : List (Str × Namespace))
        (fetched : List Str) (e : String),
        fetch name = Except.error e →
        diffSkipFor gems name ck = pure false →
        syncNamespaces fetch ((name, ck) :: rest) gems fetched =
          syncNamespaces fetch rest gems (fetched ++ [name]))
    ∧ (∀ (fetch : Str → Except String Response) (name ck : Str)
        (rest : List (Str × Str)) (gems : List (Str × Namespace))
        (fetched : List Str) (resp : Response) (t : Str),
        fetch name = Except.ok resp →
        resp.etag = some t →
        ¬ resp.status = 200 →
        diffSkipFor gems name ck = pure false →
        syncNamespaces fetch ((name, ck) :: rest) gems fetched =
          throw "Failed to fetch gem")
    ∧ (∀ (fetch : Str → Except String Response) (name ck : Str)
        (rest : List (Str × Str)) (gems : List (Str × Namespace))
        (fetched : List Str) (resp : Response),
        fetch name = Except.ok resp →
        resp.etag = none →
        diffSkipFor gems name ck = pure false →
        syncNamespaces fetch ((name, ck) :: rest) gems fetched = rpanic) := by
  refine ⟨?_, ?_, ?_⟩
  · intro fetch name ck rest gems fetched e hf hsk
    rw [syncNamespaces_cons, syncNamespace_changed hsk, hf,
      pageStep_error, runm_pure_bind, runm_pure_bind]
    rfl
  · intro fetch name ck rest gems fetched resp t hf he hst hsk
    rw [syncNamespaces_cons, syncNamespace_changed hsk, hf, pageStep_ok he,
      pageStepBody_bad_status hst, runm_throw_bind, runm_throw_bind]
  · intro fetch name ck rest gems fetched resp hf he hsk
    rw [syncNamespaces_cons, syncNamespace_changed hsk, hf,
      pageStep_no_etag he, runm_panic_bind, runm_panic_bind]

/-- The C9 counterexample response: non-success status, no ETag header. -/
def respC9 : Response := { status := 500, etag := none, body := [] }

/-- The C9 counterexample fetch oracle. -/
def fetchC9 : Str → Except String Response := fun _ => Except.ok respC9

/-- C9 counterexample: a non-success page response without an ETag header
makes the run end in a panic (run is none), so it does not abort with any
fatal FetchError result. -/
theorem c9_counterexample_no_etag_is_panic_not_error :
    fetchC9 "zlib".toList = Except.ok respC9 ∧
    respC9.status = 500 ∧
    respC9.etag = none ∧
    (syncNamespaces fetchC9 [("zlib".toList, "ck".toList)] [] []).run =
      none :=
  ⟨rfl, rfl, rfl, rfl⟩

/-- The transport-failing fetch oracle of the C9 witness. -/
def fetchIoW : Str → Except String Response := fun _ => Except.error "io"

theorem c9_witness :
    syncNamespaces fetchIoW [("n".toList, "c".toList)] [] [] =
      syncNamespaces fetchIoW [] [] ["n".toList] ∧
    syncNamespaces fetchC9 [("n".toList, "c".toList)] [] [] = rpanic :=
  ⟨c9_transport_nonfatal_status_fatal.1 fetchIoW "n".toList "c".toList []
     [] [] "io" rfl rfl,
   c9_transport_nonfatal_status_fatal.2.2 fetchC9 "n".toList "c".toList []
     [] [] respC9 rfl rfl rfl⟩

theorem hexDecode_mem_isSome : ∀ (h : Str) (d : List Nat),
    hexDecode h = some d → ∀ c, c ∈ h → (hexDigitVal? c).isSome = true
  | [], _, _, c, hc => absurd hc (List.not_mem_nil c)
  | [_], _, hd, _, _ => by simp [hexDecode] at hd
  | c1 :: c2 :: rest, d, hd, c, hc => by
    rcases hh1 : hexDigitVal? c1 with _ | v1
    · simp [hexDecode, hh1] at hd
    · rcases hh2 : hexDigitVal? c2 with _ | v2
      · simp [hexDecode, hh1, hh2] at hd
      · rcases hr : hexDecode rest with _ | r
        · simp [hexDecode, hh1, hh2, hr] at hd
        · rcases List.mem_cons.mp hc with rfl | hc2
          · simp [hh1]
          · rcases List.mem_cons.mp hc2 with rfl | hc3
            · simp [hh2]
            · exact hexDecode_mem_isSome rest r hr c hc3

theorem not_mem_of_hexDecode {h : Str} {d : List Nat}
    (hd : hexDecode h = some d) {c : Char} (hc : hexDigitVal? c = none) :
    ¬ c ∈ h := by
  intro hmem
  have hs := hexDecode_mem_isSome h d hd c hmem
  rw [hc] at hs
  exact Bool.noConfusion hs

theorem splitOnce_append_cons (c : Char) : ∀ (l1 l2 : Str), ¬ c ∈ l1 →
    splitOnce c (l1 ++ c :: l2) = some (l1, l2)
  | [], l2, _ => by simp [splitOnce]
  | x :: l1, l2, h => by
    have hx : ¬ x = c := fun he => h (List.mem_cons.mpr (Or.inl he.symm))
    have h1 : ¬ c ∈ l1 := fun hm => h (List.mem_cons.mpr (Or.inr hm))
    simp [splitOnce, hx, splitOnce_append_cons c l1 l2 h1]

theorem splitChar_ne_nil (c : Char) : ∀ (l : Str), ¬ splitChar c l = []
  | [] => by simp [splitChar]
  | x :: xs => by
    show ¬ (match splitChar c xs with
      | [] => [[x]]
      | r :: rs => if x = c then [] :: r :: rs else (x :: r) :: rs) = []
    cases hs : splitChar c xs with
    | nil => simp
    | cons r rs => by_cases hx : x = c <;> simp [hx]

theorem splitChar_not_mem (c : Char) : ∀ (l : Str), ¬ c ∈ l →
    splitChar c l = [l]
  | [], _ => rfl
  | x :: xs, h => by
    have hx : ¬ x = c := fun he => h (List.mem_cons.mpr (Or.inl he.symm))
    have h1 : ¬ c ∈ xs := fun hm => h (List.mem_cons.mpr (Or.inr hm))
    show (match splitChar c xs with
      | [] => [[x]]
      | r :: rs => if x = c then [] :: r :: rs else (x :: r) :: rs) =
      [x :: xs]
    rw [splitChar_not_mem c xs h1]
    show (if x = c then [] :: xs :: [] else (x :: xs) :: []) = [x :: xs]
    rw [if_neg hx]

theorem splitChar_append_cons (c : Char) : ∀ (l1 l2 : Str), ¬ c ∈ l1 →
    splitChar c (l1 ++ c :: l2) = l1 :: splitChar c l2
  | [], l2, _ => by
    cases hs : splitChar c l2 with
    | nil => exact absurd hs (splitChar_ne_nil c l2)
    | cons r rs =>
      show (match splitChar c l2 with
        | [] => [[c]]
        | r :: rs => if c = c then [] :: r :: rs else (c :: r) :: rs) =
        [] :: r :: rs
      rw [hs]
      show (if c = c then [] :: r :: rs else (c :: r) :: rs) = [] :: r :: rs
      rw [if_pos rfl]
  | x :: l1, l2, h => by
    have hx : ¬ x = c := fun he => h (List.mem_cons.mpr (Or.inl he.symm))
    have h1 : ¬ c ∈ l1 := fun hm => h (List.mem_cons.mpr (Or.inr hm))
    show (match splitChar c (l1 ++ c :: l2) with
      | [] => [[x]]
      | r :: rs => if x = c then [] :: r :: rs else (x :: r) :: rs) =
      (x :: l1) :: splitChar c l2
    rw [splitChar_append_cons c l1 l2 h1]
    show (if x = c then [] :: l1 :: splitChar c l2
      else (x :: l1) :: splitChar c l2) = (x :: l1) :: splitChar c l2
    rw [if_neg hx]

theorem isPrefixOf_append (l1 l2 : Str) : l1.isPrefixOf (l1 ++ l2) = true := by
  induction l1 with
  | nil => cases l2 <;> rfl
  | cons x xs ih => simp [List.isPrefixOf, ih]

theorem extractChecksum_append (hx : Str) (hcomma : ¬ ',' ∈ hx)
    (hcolon : ¬ ':' ∈ hx) :
    extractChecksum ("checksum:".toList ++ hx) = hx := by
  unfold extractChecksum
  have hsplit : splitChar ',' ("checksum:".toList ++ hx) =
      ["checksum:".toList ++ hx] := by
    apply splitChar_not_mem
    intro hm
    rcases List.mem_append.mp hm with hm | hm
    · revert hm
      decide
    · exact hcomma hm
  rw [hsplit]
  have hpre := isPrefixOf_append "checksum:".toList hx
  have hcs : "checksum:".toList ++ hx = "checksum".toList ++ (':' :: hx) :=
    rfl
  have hsp2 : splitChar ':' ("checksum:".toList ++ hx) =
      "checksum".toList :: splitChar ':' hx := by
    rw [hcs]
    exact splitChar_append_cons ':' "checksum".toList hx (by decide)
  simp only [List.foldl, hpre, if_true, hsp2, splitChar_not_mem ':' hx hcolon]
  rfl

theorem parse_info_line_no_space {name line : Str}
    (h : splitOnce ' ' line = none) :
    parse_info_line name line = throw "Invalid line format" := by
  simp only [parse_info_line, h, runm_throw_bind]

theorem parse_info_line_no_pipe {name line v0 r : Str}
    (h1 : splitOnce ' ' line = some (v0, r))
    (h2 : splitOnce '|' r = none) :
    parse_info_line name line = throw "Invalid line format" := by
  simp only [parse_info_line, h1, runm_pure_bind, h2, runm_throw_bind]

theorem parse_info_line_bad_hex {name line v0 r dp m : Str}
    (h1 : splitOnce ' ' line = some (v0, r))
    (h2 : splitOnce '|' r = some (dp, m))
    (h3 : Integrity.from_hex (extractChecksum m) = none) :
    parse_info_line name line = rpanic := by
  simp only [parse_info_line, h1, runm_pure_bind, h2, h3, runm_panic_bind]

theorem parse_info_line_eq {name line v0 r dp m : Str} {i : Integrity}
    (h1 : splitOnce ' ' line = some (v0, r))
    (h2 : splitOnce '|' r = some (dp, m))
    (h3 : Integrity.from_hex (extractChecksum m) = some i) :
    parse_info_line name line =
      pure { full_name :=
               if ((splitOnce '-' v0).getD (v0, "ruby".toList)).2 =
                   "ruby".toList
               then name ++
                 ('-' :: ((splitOnce '-' v0).getD (v0, "ruby".toList)).1)
               else name ++
                 ('-' :: ((splitOnce '-' v0).getD (v0, "ruby".toList)).1) ++
                 ('-' :: ((splitOnce '-' v0).getD (v0, "ruby".toList)).2),
             name := name,
             version := ((splitOnce '-' v0).getD (v0, "ruby".toList)).1,
             platform := ((splitOnce '-' v0).getD (v0, "ruby".toList)).2,
             package_integrity := i, metadata_gz_integrity := none,
             stored := false } := by
  simp only [parse_info_line, h1, runm_pure_bind, h2, h3]

theorem parse_info_line_build (name vtoken ver plat hx : Str) (d : List Nat)
    (hsp : ¬ ' ' ∈ vtoken)
    (hvp : (splitOnce '-' vtoken).getD (vtoken, "ruby".toList) = (ver, plat))
    (hd : hexDecode hx = some d) :
    parse_info_line name
        (vtoken ++ (' ' :: ('|' :: ("checksum:".toList ++ hx)))) =
      pure { full_name :=
               if plat = "ruby".toList then name ++ ('-' :: ver)
               else name ++ ('-' :: ver) ++ ('-' :: plat),
             name := name, version := ver, platform := plat,
             package_integrity := { algorithm := sha256Tag, digest := d },
             metadata_gz_integrity := none, stored := false } := by
  have h1 : splitOnce ' '
      (vtoken ++ (' ' :: ('|' :: ("checksum:".toList ++ hx)))) =
      some (vtoken, '|' :: ("checksum:".toList ++ hx)) :=
    splitOnce_append_cons ' ' vtoken _ hsp
  have h2 : splitOnce '|' ('|' :: ("checksum:".toList ++ hx)) =
      some ([], "checksum:".toList ++ hx) := by
    simp [splitOnce]
  have hcomma : ¬ ',' ∈ hx := not_mem_of_hexDecode hd (by decide)
  have hcolon : ¬ ':' ∈ hx := not_mem_of_hexDecode hd (by decide)
  have h3 : Integrity.from_hex
      (extractChecksum ("checksum:".toList ++ hx)) =
      some { algorithm := sha256Tag, digest := d } := by
    rw [extractChecksum_append hx hcomma hcolon]
    simp [Integrity.from_hex, hd]
  rw [parse_info_line_eq h1 h2 h3, hvp]

/-- C7: the two worked examples of parse_info_line for any valid hex digest
after the checksum key, and the general platform rule: the platform defaults
to ruby when the version token has no dash suffix, and the full name omits
the platform exactly when the platform is ruby. -/
theorem c7_parser_examples_and_platform_rule :
    ∀ (hx : Str) (d : List Nat), hexDecode hx = some d →
      (parse_info_line "rails".toList ("7.1.0 |checksum:".toList ++ hx) =
        pure { full_name := "rails-7.1.0".toList, name := "rails".toList,
               version := "7.1.0".toList, platform := "ruby".toList,
               package_integrity := { algorithm := sha256Tag, digest := d },
               metadata_gz_integrity := none, stored := false })
      ∧ (parse_info_line "nokogiri".toList
            ("1.15.0-x86_64-linux |checksum:".toList ++ hx) =
          pure { full_name := "nokogiri-1.15.0-x86_64-linux".toList,
                 name := "nokogiri".toList, version := "1.15.0".toList,
                 platform := "x86_64-linux".toList,
                 package_integrity :=
                   { algorithm := sha256Tag, digest := d },
                 metadata_gz_integrity := none, stored := false })
      ∧ (∀ (name line : Str) (gem : Gem),
          parse_info_line name line = pure gem →
          ((gem.platform = "ruby".toList →
              gem.full_name = gem.name ++ ('-' :: gem.version)) ∧
           (¬ gem.platform = "ruby".toList →
              gem.full_name =
                gem.name ++ ('-' :: gem.version) ++ ('-' :: gem.platform)) ∧
           (∀ v0 r, splitOnce ' ' line = some (v0, r) →
              splitOnce '-' v0 = none →
              gem.platform = "ruby".toList))) := by
  intro hx d hd
  refine ⟨?_, ?_, ?_⟩
  · exact parse_info_line_build "rails".toList "7.1.0".toList
      "7.1.0".toList "ruby".toList hx d (by decide) (by decide) hd
  · exact parse_info_line_build "nokogiri".toList
      "1.15.0-x86_64-linux".toList "1.15.0".toList "x86_64-linux".toList
      hx d (by decide) (by decide) hd
  · intro name line gem hp
    cases h1 : splitOnce ' ' line with
    | none =>
      rw [parse_info_line_no_space h1] at hp
      exact (runm_pure_ne_throw gem _ hp.symm).elim
    | some p =>
      obtain ⟨v0, r⟩ := p
      cases h2 : splitOnce '|' r with
      | none =>
        rw [parse_info_line_no_pipe h1 h2] at hp
        exact (runm_pure_ne_throw gem _ hp.symm).elim
      | some q =>
        obtain ⟨dp, m⟩ := q
        cases h3 : Integrity.from_hex (extractChecksum m) with
        | none =>
          rw [parse_info_line_bad_hex h1 h2 h3] at hp
          exact (runm_pure_ne_panic gem hp.symm).elim
        | some i =>
          rw [parse_info_line_eq h1 h2 h3] at hp
          have hg := (runm_pure_inj hp).symm
          subst hg
          refine ⟨?_, ?_, ?_⟩
          · intro hruby
            dsimp only at hruby ⊢
            rw [if_pos hruby]
          · intro hnot
            dsimp only at hnot ⊢
            rw [if_neg hnot]
          · intro v0' r' h1' hdash
            have hv0 : v0 = v0' := congrArg Prod.fst (Option.some.inj h1')
            rw [← hv0] at hdash
            show ((splitOnce '-' v0).getD (v0, "ruby".toList)).2 =
              "ruby".toList
            rw [hdash]
            rfl

/-- The digest list of the C7 witness, hex abc123. -/
def digestC7W : List Nat := [171, 193, 35]

theorem c7_witness :
    hexDecode "abc123".toList = some digestC7W ∧
    parse_info_line "rails".toList
        ("7.1.0 |checksum:".toList ++ "abc123".toList) =
      pure { full_name := "rails-7.1.0".toList, name := "rails".toList,
             version := "7.1.0".toList, platform := "ruby".toList,
             package_integrity :=
               { algorithm := sha256Tag, digest := digestC7W },
             metadata_gz_integrity := none, stored := false } :=
  ⟨by decide,
   (c7_parser_examples_and_platform_rule "abc123".toList digestC7W
     (by decide)).1⟩

/-- C8 amended: parse_info_line returns a ParseError exactly when the space
or the pipe separator is missing; when both separators are present a
checksum value that fails to decode makes it panic, not return an error; and
every successful parse yields a gem with stored false and no metadata
integrity. -/
theorem c8_parse_failure_conditions :
    ∀ (name line : Str),
      ((∃ e, parse_info_line name line = throw e) ↔
        (splitOnce ' ' line = none ∨
          ∃ v0 r, splitOnce ' ' line = some (v0, r) ∧
            splitOnce '|' r = none))
      ∧ (∀ gem, parse_info_line name line = pure gem →
          gem.stored = false ∧ gem.metadata_gz_integrity = none)
      ∧ (∀ v0 r dp m, splitOnce ' ' line = some (v0, r) →
          splitOnce '|' r = some (dp, m) →
          (parse_info_line name line = rpanic ↔
            Integrity.from_hex (extractChecksum m) = none)) := by
  intro name line
  refine ⟨⟨?_, ?_⟩, ?_, ?_⟩
  · rintro ⟨e, he⟩
    cases h1 : splitOnce ' ' line with
    | none => exact Or.inl rfl
    | some p =>
      obtain ⟨v0, r⟩ := p
      cases h2 : splitOnce '|' r with
      | none => exact Or.inr ⟨v0, r, rfl, h2⟩
      | some q =>
        obtain ⟨dp, m⟩ := q
        cases h3 : Integrity.from_hex (extractChecksum m) with
        | none =>
          rw [parse_info_line_bad_hex h1 h2 h3] at he
          exact (runm_throw_ne_panic e he.symm).elim
        | some i =>
          rw [parse_info_line_eq h1 h2 h3] at he
          exact (runm_pure_ne_throw _ e he).elim
  · intro hcase
    rcases hcase with h1 | ⟨v0, r, h1, h2⟩
    · exact ⟨"Invalid line format", parse_info_line_no_space h1⟩
    · exact ⟨"Invalid line format", parse_info_line_no_pipe h1 h2⟩
  · intro gem hp
    cases h1 : splitOnce ' ' line with
    | none =>
      rw [parse_info_line_no_space h1] at hp
      exact (runm_pure_ne_throw gem _ hp.symm).elim
    | some p =>
      obtain ⟨v0, r⟩ := p
      cases h2 : splitOnce '|' r with
      | none =>
        rw [parse_info_line_no_pipe h1 h2] at hp
        exact (runm_pure_ne_throw gem _ hp.symm).elim
      | some q =>
        obtain ⟨dp, m⟩ := q
        cases h3 : Integrity.from_hex (extractChecksum m) with
        | none =>
          rw [parse_info_line_bad_hex h1 h2 h3] at hp
          exact (runm_pure_ne_panic gem hp.symm).elim
        | some i =>
          rw [parse_info_line_eq h1 h2 h3] at hp
          have hg := (runm_pure_inj hp).symm
          subst hg
          exact ⟨rfl, rfl⟩
  · intro v0 r dp m hh1 hh2
    constructor
    · intro hpanic
      cases h3 : Integrity.from_hex (extractChecksum m) with
      | none => rfl
      | some i =>
        rw [parse_info_line_eq hh1 hh2 h3] at hpanic
        exact (runm_pure_ne_panic _ hpanic).elim
    · intro h3
      exact parse_info_line_bad_hex hh1 hh2 h3

/-- C8 counterexample: a line with both separators present whose checksum
value zz fails to hex-decode makes parse_info_line panic (the run is none),
not return any error result. -/
theorem c8_counterexample_bad_checksum_panics :
    Integrity.from_hex (extractChecksum "checksum:zz".toList) = none ∧
    splitOnce ' ' "1.0 |checksum:zz".toList =
      some ("1.0".toList, "|checksum:zz".toList) ∧
    (parse_info_line "rails".toList "1.0 |checksum:zz".toList).run = none :=
  ⟨rfl, rfl, rfl⟩

/-- The gem of the C8 witness, parsed from a well-formed line. -/
def gemC8W : Gem :=
  { full_name := "a-1.0".toList, name := "a".toList,
    version := "1.0".toList, platform := "ruby".toList,
    package_integrity := { algorithm := sha256Tag, digest := [171] },
    metadata_gz_integrity := none, stored := false }

theorem c8_witness :
    parse_info_line "a".toList "1.0 |checksum:ab".toList = pure gemC8W ∧
    gemC8W.stored = false ∧ gemC8W.metadata_gz_integrity = none :=
  ⟨rfl,
   (c8_parse_failure_conditions "a".toList "1.0 |checksum:ab".toList).2.1
     gemC8W rfl⟩
